import Mathlib

/-!
# Verification of the crosshare pagination, comment and notification logic

Shallow embedding of the relevant parts of the crosshare repository:

* the paginated index builder `getPuzzlesForPage` (lib/serverOnly, lines
  382-517 of the source): index document shape, incremental update step,
  privacy filtering (splice loop), sorting, slicing and page assembly;
* the comment form logic of `Comments.tsx` (`sanitize`, `submitComment`);
* the notification e-mail digest routine `queueEmailForUser`;
* the grid-entry / clue validation layer (`completedWord`,
  `validateForPublish`), which is referenced by the UI sources but whose
  implementation file is not part of this source snapshot: those two are
  modelled from the specification text.

Timestamps are modelled as integers (milliseconds); Firestore documents
become Lean structures; fallible steps return `Except String`.
-/

namespace Crosshare

/-! ## Comment form (`Comments.tsx`)

JS strings are modelled as `List Char`.  `sanitize` is
`input.substring(0, COMMENT_LENGTH_LIMIT)`; `submitComment` trims the
current text and refuses to submit when the trimmed text is empty.
-/

def COMMENT_LENGTH_LIMIT : Nat := 280

def sanitize (input : List Char) : List Char :=
  input.take COMMENT_LENGTH_LIMIT

/-- JS whitespace for the purposes of `String.prototype.trim`. -/
def isJsWhitespace (c : Char) : Bool :=
  c = ' ' || c = '\t' || c = '\n' || c = '\r'

/-- `String.prototype.trim`: drop whitespace from both ends. -/
def jsTrim (s : List Char) : List Char :=
  ((s.dropWhile isJsWhitespace).reverse.dropWhile isJsWhitespace).reverse

/-- The submit handler: `textToSubmit = commentText.trim(); if
(!textToSubmit) return;` and otherwise the comment is stored with
`c: textToSubmit`.  Returns the stored text, if any. -/
def submitComment (commentText : List Char) : Option (List Char) :=
  let textToSubmit := jsTrim commentText
  if textToSubmit.isEmpty then none else some textToSubmit

theorem jsTrim_length_le (s : List Char) : (jsTrim s).length ≤ s.length := by
  unfold jsTrim
  calc ((s.dropWhile isJsWhitespace).reverse.dropWhile isJsWhitespace).reverse.length
      = ((s.dropWhile isJsWhitespace).reverse.dropWhile isJsWhitespace).length := by
        rw [List.length_reverse]
    _ ≤ (s.dropWhile isJsWhitespace).reverse.length :=
        (List.dropWhile_sublist _).length_le
    _ = (s.dropWhile isJsWhitespace).length := by rw [List.length_reverse]
    _ ≤ s.length := (List.dropWhile_sublist _).length_le

theorem sanitize_length_le (raw : List Char) :
    (sanitize raw).length ≤ COMMENT_LENGTH_LIMIT := by
  unfold sanitize
  rw [List.length_take]
  exact min_le_left _ _

/-- C9: every comment submitted through the comment form is stored with
non-empty text: the stored text is the trimmed text, a whitespace-only
comment is never submitted, and the stored text never exceeds the
280-character limit enforced by the input sanitizer. -/
theorem comment_form_stores_trimmed_bounded (raw : List Char) :
    (∀ c, submitComment (sanitize raw) = some c →
      c = jsTrim (sanitize raw) ∧ c.isEmpty = false ∧
        c.length ≤ COMMENT_LENGTH_LIMIT) ∧
    ((∀ ch ∈ raw, isJsWhitespace ch) → submitComment (sanitize raw) = none) := by
  constructor
  · intro c h
    unfold submitComment at h
    by_cases he : (jsTrim (sanitize raw)).isEmpty
    · simp [he] at h
    · simp [he] at h
      subst h
      refine ⟨rfl, by simpa using he, ?_⟩
      exact le_trans (jsTrim_length_le _) (sanitize_length_le raw)
  · intro hws
    have hall : ∀ ch ∈ sanitize raw, isJsWhitespace ch := by
      intro ch hch
      exact hws ch (List.mem_of_mem_take hch)
    have h1 : (sanitize raw).dropWhile isJsWhitespace = [] :=
      List.dropWhile_eq_nil_iff.mpr hall
    unfold submitComment jsTrim
    simp [h1]

/-- Witness for C9: submitting `" hi "` stores the trimmed text `"hi"`. -/
theorem comment_form_stores_trimmed_bounded_witness :
    (['h', 'i'] : List Char) = jsTrim (sanitize [' ', 'h', 'i', ' ']) ∧
      (['h', 'i'] : List Char).isEmpty = false ∧
      (['h', 'i'] : List Char).length ≤ COMMENT_LENGTH_LIMIT :=
  (comment_form_stores_trimmed_bounded [' ', 'h', 'i', ' ']).1 ['h', 'i'] (by decide)

/-! ## Notification e-mail digest (`queueEmailForUser`, lib/serverOnly)

`AccountPrefsT` is reduced to its `unsubs` field, the only one this
routine reads.  A notification carries the fields the digest uses:
`id`, kind, puzzle id `p`, puzzle name `pn`, commenter name `cn`,
author name `an` and the featured blurb.  The markdown-to-html renderer
is an external library; the html body carries the markdown text.
-/

structure AccountPrefs where
  unsubs : Option (List String)
deriving Repr, DecidableEq

inductive NotifKind
  | comment
  | reply
  | newpuzzle
  | featured
deriving Repr, DecidableEq

structure Notification where
  id : String
  kind : NotifKind
  p : String
  pn : String
  cn : String
  an : String
  featAs : Option String
deriving Repr, DecidableEq

instance : Inhabited Notification :=
  ⟨{ id := "", kind := NotifKind.comment, p := "", pn := "", cn := "", an := "",
     featAs := none }⟩

structure EmailMsg where
  toAddress : String
  subject : String
  text : String
  html : String
deriving Repr, DecidableEq

structure QueueResult where
  sent : Option EmailMsg
  markedRead : List String
deriving Repr, DecidableEq

/-- `Array.from(new Set(vals)).sort()` followed by the 1/2/many join. -/
def joinStringsWithAnd (vals : List String) : String :=
  let dedup := List.insertionSort (· ≤ ·) vals.dedup
  if dedup.length == 1 then dedup.headD ""
  else if dedup.length == 2 then dedup.getD 0 "" ++ " and " ++ dedup.getD 1 ""
  else String.intercalate ", " dedup.dropLast ++ " and " ++ dedup.getLastD ""

def emailLink (linkTo : String) : String :=
  "https://crosshare.org/" ++ linkTo ++
    "#utm_source=crosshare&utm_medium=email&utm_campaign=notifications"

def puzzleLink (puzzleId : String) : String :=
  emailLink ("crosswords/" ++ puzzleId)

def replaceTag (c : Char) : String :=
  if c = '&' then "&amp;"
  else if c = '<' then "&lt;"
  else if c = '>' then "&gt;"
  else String.singleton c

def safeForHtml (str : String) : String :=
  String.join (str.toList.map replaceTag)

/-- The `reduce` grouping notifications by puzzle id; JS object string keys
keep insertion order. -/
def groupByPuzzle (l : List Notification) : List (String × List Notification) :=
  l.foldl
    (fun rv x =>
      if rv.any (fun pr => pr.1 == x.p) then
        rv.map (fun pr => if pr.1 == x.p then (pr.1, pr.2 ++ [x]) else pr)
      else rv ++ [(x.p, [x])])
    []

/-- State threaded through the four digest sections: accumulated markdown,
optional subject, and the notifications to mark as read. -/
structure DigestState where
  markdown : String
  subject : Option String
  read : List Notification

def commentSection (sorted : List Notification) (st : DigestState) : DigestState :=
  let comments := sorted.filter (fun n => n.kind == NotifKind.comment)
  let commentsByPuzzle := groupByPuzzle comments
  if comments.length ≠ 0 then
    let subject := some ("Crosshare: new comments on " ++
      joinStringsWithAnd ((commentsByPuzzle.map (fun pr => (pr.2.headD default).pn)).take 3))
    let st := { st with subject := subject,
                        markdown := st.markdown ++ "### Comments on your puzzles:\n\n" }
    let st := commentsByPuzzle.foldl
      (fun st pr =>
        let nameDisplay := joinStringsWithAnd (pr.2.map (fun n => n.cn))
        { st with
          read := st.read ++ pr.2,
          markdown := st.markdown ++ "* " ++ nameDisplay ++ " commented on [" ++
            ((pr.2.headD default).pn) ++ "](" ++ puzzleLink pr.1 ++ ")\n" })
      st
    { st with markdown := st.markdown ++ "\n\n" }
  else st

def replySection (sorted : List Notification) (st : DigestState) : DigestState :=
  let replies := sorted.filter (fun n => n.kind == NotifKind.reply)
  let repliesByPuzzle := groupByPuzzle replies
  if replies.length ≠ 0 then
    let subject :=
      match st.subject with
      | some s => some s
      | none => some ("Crosshare: new replies to your comments on " ++
          joinStringsWithAnd ((repliesByPuzzle.map (fun pr => (pr.2.headD default).pn)).take 3))
    let st := { st with subject := subject,
                        markdown := st.markdown ++ "### Replies to your comments:\n\n" }
    let st := repliesByPuzzle.foldl
      (fun st pr =>
        let nameDisplay := joinStringsWithAnd (pr.2.map (fun n => n.cn))
        { st with
          read := st.read ++ pr.2,
          markdown := st.markdown ++ "* " ++ nameDisplay ++ " replied to your comments on [" ++
            ((pr.2.headD default).pn) ++ "](" ++ puzzleLink pr.1 ++ ")\n" })
      st
    { st with markdown := st.markdown ++ "\n\n" }
  else st

def newPuzzleSection (sorted : List Notification) (st : DigestState) : DigestState :=
  let nps := sorted.filter (fun n => n.kind == NotifKind.newpuzzle)
  if nps.length ≠ 0 then
    let plural := if nps.length > 1 then "s" else ""
    let constructorPlural := if nps.length > 1 then "constructors" else "a constructor"
    let subject :=
      match st.subject with
      | some s => some s
      | none => some ("Crosshare: new puzzle" ++ plural ++ " by " ++
          joinStringsWithAnd ((nps.map (fun a => a.an)).take 3))
    let st := { st with subject := subject,
                        markdown := st.markdown ++ "### New puzzle" ++ plural ++ " by " ++
                          constructorPlural ++ " you follow:\n\n" }
    let st := nps.foldl
      (fun st n =>
        { st with
          read := st.read ++ [n],
          markdown := st.markdown ++ "* " ++ n.an ++ " published [" ++ n.pn ++ "](" ++
            puzzleLink n.p ++ ")\n" })
      st
    { st with markdown := st.markdown ++ "\n\n" }
  else st

def featuredSection (sorted : List Notification) (st : DigestState) : DigestState :=
  let fs := sorted.filter (fun n => n.kind == NotifKind.featured)
  if fs.length ≠ 0 then
    let plural := if fs.length > 1 then "s" else ""
    let subject :=
      match st.subject with
      | some s => some s
      | none => some ("Crosshare featured your puzzle" ++ plural ++ "!")
    let st := { st with subject := subject,
                        markdown := st.markdown ++ "### Crosshare has featured your puzzle" ++
                          plural ++ ":\n\n" }
    let st := fs.foldl
      (fun st n =>
        { st with
          read := st.read ++ [n],
          markdown := st.markdown ++ "* [" ++ n.pn ++ "](" ++ puzzleLink n.p ++
            ") was featured" ++ (match n.featAs with
                                 | some a => " as " ++ a
                                 | none => "") ++ "\n" })
      st
    { st with markdown := st.markdown ++ "\n\n" }
  else st

def digestFooter : String :=
  "---\n\nCrosshare notifications are sent at most once per day. To manage your notification preferences visit [your Account page](" ++
    emailLink "account" ++ ")"

/-- Whether the (possibly missing / invalid) prefs unsubscribe from `tag`:
`prefs?.unsubs?.includes(tag)`. -/
def unsubscribed (prefs : Option AccountPrefs) (tag : String) : Bool :=
  match prefs with
  | some p => (p.unsubs.getD []).contains tag
  | none => false

/-- `queueEmailForUser` from lib/serverOnly.  `prefsDoc` is the raw
`prefs/{userId}` document: `none` when absent, `some none` when present
but failing `AccountPrefsV`, `some (some p)` when valid.  `userEmail` is
`getUser(userId)?.email`.  Returns the queued e-mail (if any) and the ids
of the notifications marked read. -/
def queueEmailForUser (prefsDoc : Option (Option AccountPrefs))
    (userEmail : Option String) (notifications : List Notification) : QueueResult :=
  let sorted := List.insertionSort (fun a b : Notification => a.id ≤ b.id) notifications
  let prefs : Option AccountPrefs :=
    match prefsDoc with
    | some (some p) => some p
    | _ => none
  if unsubscribed prefs "all" then { sent := none, markedRead := [] }
  else
    match userEmail with
    | none => { sent := none, markedRead := [] }
    | some toAddress =>
      let st : DigestState := { markdown := "", subject := none, read := [] }
      let st :=
        if unsubscribed prefs "comments" then st
        else replySection sorted (commentSection sorted st)
      let st :=
        if unsubscribed prefs "newpuzzles" then st else newPuzzleSection sorted st
      let st :=
        if unsubscribed prefs "featured" then st else featuredSection sorted st
      if st.markdown == "" then { sent := none, markedRead := [] }
      else
        let markdown := st.markdown ++ digestFooter
        let subject := st.subject.getD "Crosshare Notifications"
        { sent := some
            { toAddress := toAddress,
              subject := subject,
              text := markdown,
              html := "<!DOCTYPE html>\n<html>\n<head>\n<meta http-equiv=\"Content-Type\" content=\"text/html charset=UTF-8\" />\n<title>" ++
                safeForHtml subject ++ "</title>\n</head>\n<body>\n" ++ markdown ++
                "\n</body>\n</html>" },
          markedRead := st.read.map (fun n => n.id) }

/-- C10: a user whose account preferences contain `all` in the
unsubscribe list gets no e-mail and none of their notifications are
marked read, however many notifications are pending. -/
theorem queueEmailForUser_unsub_all (p : AccountPrefs) (us : List String)
    (userEmail : Option String) (notifications : List Notification)
    (h1 : p.unsubs = some us) (h2 : "all" ∈ us) :
    queueEmailForUser (some (some p)) userEmail notifications =
      { sent := none, markedRead := [] } := by
  have hc : unsubscribed (some p) "all" = true := by
    simp only [unsubscribed, h1, Option.getD_some]
    exact List.elem_iff.mpr h2
  unfold queueEmailForUser
  simp [hc]

/-- Witness for C10 at a concrete user with three pending notifications. -/
theorem queueEmailForUser_unsub_all_witness :
    queueEmailForUser (some (some { unsubs := some ["all"] }))
        (some "user@example.com")
        [{ id := "n1", kind := NotifKind.comment, p := "p1", pn := "P1",
           cn := "C", an := "A", featAs := none },
         { id := "n2", kind := NotifKind.newpuzzle, p := "p2", pn := "P2",
           cn := "C", an := "A", featAs := none },
         { id := "n3", kind := NotifKind.featured, p := "p3", pn := "P3",
           cn := "C", an := "A", featAs := some "fun" }] =
      { sent := none, markedRead := [] } :=
  queueEmailForUser_unsub_all _ ["all"] _ _ rfl (by decide)

/-! ## Paginated index builder (`getPuzzlesForPage`, lib/serverOnly)

A document of the `c` collection is reduced to the fields this routine
reads: its id, publish timestamp `p` (milliseconds), whether it satisfies
the `where(queryField, '==', queryValue)` clause, the privacy flags `pv`
and `pvu`, and whether it decodes under `DBPuzzleV`.  The `i` collection
holds at most the one index document: `none` when absent, `some none`
when present but failing `PuzzleIndexV`, `some (some idx)` when valid.
-/

structure CDoc where
  id : String
  p : Int
  matchesQuery : Bool
  pv : Bool
  pvu : Option Int
  valid : Bool
deriving Repr, DecidableEq

structure PuzzleIndex where
  t : List Int
  i : List String
  pv : Option (List String)
  pvui : Option (List String)
  pvut : Option (List Int)
deriving Repr, DecidableEq

structure Store where
  cDocs : List CDoc
  indexDoc : Option (Option PuzzleIndex)
deriving Repr, DecidableEq

/-- Loading and validating the index document: an invalid document throws
(`failed to validate index`), an absent one is initialized empty. -/
def loadIndex (store : Store) : Except String PuzzleIndex :=
  match store.indexDoc with
  | some none => Except.error "failed to validate index"
  | some (some idx) => Except.ok idx
  | none => Except.ok { t := [], i := [], pv := none, pvui := none, pvut := none }

/-- `if (index.i.length) { const mostRecentTimestamp = index.t[0]; if
(mostRecentTimestamp) { q = q.endBefore(mostRecentTimestamp) } }`. -/
def cutoffOf (idx : PuzzleIndex) : Option Int :=
  if idx.i.length ≠ 0 then idx.t.head? else none

/-- Descending publish-time order used by `orderBy('p', 'desc')`. -/
def pDesc (a b : CDoc) : Prop := b.p ≤ a.p

instance : DecidableRel pDesc := fun a b => inferInstanceAs (Decidable (b.p ≤ a.p))

instance : IsTotal CDoc pDesc := ⟨fun a b => le_total b.p a.p⟩

instance : IsTrans CDoc pDesc := ⟨fun _ _ _ h1 h2 => le_trans h2 h1⟩

/-- The query `db.collection('c').where(queryField,'==',queryValue)
.orderBy('p','desc')` with an optional `endBefore` cursor: the matching
documents with publish time strictly after the cursor, in descending
publish-time order. -/
def queryC (cDocs : List CDoc) (cutoff : Option Int) : List CDoc :=
  List.insertionSort pDesc
    (cDocs.filter (fun d =>
      d.matchesQuery && match cutoff with
                        | some c => decide (c < d.p)
                        | none => true))

/-- `mapEachResult(q, DBPuzzleV, ...)`: every returned document is decoded;
a document failing `DBPuzzleV` throws. -/
def mapEachResult (l : List CDoc) : Except String (List CDoc) :=
  l.mapM (fun d => if d.valid then Except.ok d else Except.error "failed to validate results")

/-- The update step `for (const p of newPuzzles.reverse()) { ... }`:
timestamps and ids are `unshift`ed to the front, permanently-private ids
are `push`ed onto `pv`, private-until ids and their go-live times are
`unshift`ed onto `pvui` / `pvut`. -/
def addOnePuzzle (index : PuzzleIndex) (p : CDoc) : PuzzleIndex :=
  let index := { index with t := p.p :: index.t, i := p.id :: index.i }
  let index :=
    if p.pv then { index with pv := some ((index.pv.getD []) ++ [p.id]) } else index
  match p.pvu with
  | some pvuT =>
    { index with pvui := some (p.id :: (index.pvui.getD [])),
                 pvut := some (pvuT :: (index.pvut.getD [])) }
  | none => index

def addNewPuzzles (newPuzzles : List CDoc) (idx : PuzzleIndex) : PuzzleIndex :=
  newPuzzles.reverse.foldl addOnePuzzle idx

/-- `const pvidx = index.pvui.indexOf(pid); const goLiveTime =
index.pvut[pvidx]`. -/
def goLiveOf (idx : PuzzleIndex) (pid : String) : Option Int :=
  (idx.pvut.getD [])[(idx.pvui.getD []).indexOf pid]?

/-- One iteration of the privacy-splice loop, at position `j` holding
puzzle id `pid`.  Permanently-private ids are spliced out; private-until
ids are spliced out while their go-live time is still in the future and
otherwise have their sort timestamp replaced by the go-live time. -/
def processEntry (idx : PuzzleIndex) (now : Int) (j : Nat) (pid : String)
    (l : List (String × Int)) : Except String (List (String × Int)) :=
  if (idx.pv.getD []).contains pid then Except.ok (l.eraseIdx j)
  else if (idx.pvui.getD []).contains pid && idx.pvut.isSome then
    match goLiveOf idx pid with
    | none => Except.error ("mising from pvut but in pvui: " ++ pid)
    | some goLiveTime =>
      if now < goLiveTime then Except.ok (l.eraseIdx j)
      else
        match l[j]? with
        | none => Except.ok l
        | some valAt => Except.ok (l.set j (valAt.1, goLiveTime))
  else Except.ok l

/-- The splice loop runs over `Array.from(index.i.entries())` reversed:
positions `index.i.length - 1` down to `0`. -/
def privacyLoop (idx : PuzzleIndex) (now : Int) :
    Nat → List (String × Int) → Except String (List (String × Int))
  | 0, l => Except.ok l
  | k + 1, l =>
    match processEntry idx now k (idx.i.getD k "") l with
    | Except.error e => Except.error e
    | Except.ok l' => privacyLoop idx now k l'

/-- Descending order on the effective timestamps:
`sort((a, b) => b[1].toMillis() - a[1].toMillis())`. -/
def tDesc (a b : String × Int) : Prop := b.2 ≤ a.2

instance : DecidableRel tDesc := fun a b => inferInstanceAs (Decidable (b.2 ≤ a.2))

instance : IsTotal (String × Int) tDesc := ⟨fun a b => le_total b.2 a.2⟩

instance : IsTrans (String × Int) tDesc := ⟨fun _ _ _ h1 h2 => le_trans h2 h1⟩

/-- The page-assembly loop: ids already fetched by the query are reused,
other ids are fetched from the `c` collection; an id whose document does
not exist or fails `DBPuzzleV` is logged and skipped.  The delivered
puzzles are represented by their ids. -/
def assemblePage (cDocs newPuzzles : List CDoc) (entriesForPage : List String) :
    List String :=
  entriesForPage.foldl
    (fun puzzles puzzleId =>
      match newPuzzles.find? (fun x => x.id == puzzleId) with
      | some alreadyHave => puzzles ++ [alreadyHave.id]
      | none =>
        match cDocs.find? (fun d => d.id == puzzleId) with
        | none => puzzles
        | some dbres => if dbres.valid then puzzles ++ [dbres.id] else puzzles)
    []

/-- The page computation on the (already updated) index: zip ids with
timestamps, run the privacy-splice loop, sort descending by effective
timestamp, slice the requested page, assemble the documents.  Returns the
delivered puzzle ids and the post-filter total. -/
def pageFromIndex (cDocs newPuzzles : List CDoc) (idx : PuzzleIndex) (now : Int)
    (page pageSize : Nat) : Except String (List String × Nat) :=
  match privacyLoop idx now idx.i.length (idx.i.zip idx.t) with
  | Except.error e => Except.error e
  | Except.ok idsAndTimes =>
    let sorted := List.insertionSort tDesc idsAndTimes
    let start := page * pageSize
    let entriesForPage := ((sorted.drop start).take pageSize).map Prod.fst
    Except.ok (assemblePage cDocs newPuzzles entriesForPage, sorted.length)

/-- `getPuzzlesForPage`: load the index (re-initializing when absent),
discover documents newer than its most recent timestamp, prepend them and
persist, then filter, sort, slice and assemble the page.  Returns the
delivered puzzle ids, the post-filter total, and the state of the store
after the run. -/
def getPuzzlesForPage (store : Store) (now : Int) (page pageSize : Nat) :
    Except String (List String × Nat × Store) :=
  match loadIndex store with
  | Except.error e => Except.error e
  | Except.ok index =>
    match mapEachResult (queryC store.cDocs (cutoffOf index)) with
    | Except.error e => Except.error e
    | Except.ok mapped =>
      let newPuzzles := mapped.filter (fun a => !(index.i.contains a.id))
      let index1 := if newPuzzles.length ≠ 0 then addNewPuzzles newPuzzles index else index
      let store1 :=
        if newPuzzles.length ≠ 0 then { store with indexDoc := some (some index1) }
        else store
      match pageFromIndex store.cDocs newPuzzles index1 now page pageSize with
      | Except.error e => Except.error e
      | Except.ok (puzzles, total) => Except.ok (puzzles, total, store1)

theorem addOnePuzzle_i (idx : PuzzleIndex) (d : CDoc) :
    (addOnePuzzle idx d).i = d.id :: idx.i := by
  cases hpv : d.pv <;> cases hpvu : d.pvu <;> simp [addOnePuzzle, hpv, hpvu]

theorem addOnePuzzle_t (idx : PuzzleIndex) (d : CDoc) :
    (addOnePuzzle idx d).t = d.p :: idx.t := by
  cases hpv : d.pv <;> cases hpvu : d.pvu <;> simp [addOnePuzzle, hpv, hpvu]

theorem addNewPuzzles_i (newPuzzles : List CDoc) (idx : PuzzleIndex) :
    (addNewPuzzles newPuzzles idx).i = newPuzzles.map CDoc.id ++ idx.i := by
  unfold addNewPuzzles
  rw [List.foldl_reverse]
  induction newPuzzles with
  | nil => rfl
  | cons a l ih => simp [List.foldr_cons, addOnePuzzle_i, ih]

theorem addNewPuzzles_t (newPuzzles : List CDoc) (idx : PuzzleIndex) :
    (addNewPuzzles newPuzzles idx).t = newPuzzles.map CDoc.p ++ idx.t := by
  unfold addNewPuzzles
  rw [List.foldl_reverse]
  induction newPuzzles with
  | nil => rfl
  | cons a l ih => simp [List.foldr_cons, addOnePuzzle_t, ih]

/-- An index holding `[ts=100,id=A]`, `[ts=90,id=B]`. -/
def exIdx : PuzzleIndex := { t := [100, 90], i := ["A", "B"], pv := none, pvui := none, pvut := none }

def exA : CDoc := { id := "A", p := 100, matchesQuery := true, pv := false, pvu := none, valid := true }

def exB : CDoc := { id := "B", p := 90, matchesQuery := true, pv := false, pvu := none, valid := true }

/-- A new matching document `[ts=110,id=C]`, not yet indexed. -/
def exC : CDoc := { id := "C", p := 110, matchesQuery := true, pv := false, pvu := none, valid := true }

def exStore : Store := { cDocs := [exA, exB, exC], indexDoc := some (some exIdx) }

/-- C5: the update step prepends newly discovered documents to the front
of the index in newest-first order; with existing entries
`[ts=100,id=A]`, `[ts=90,id=B]` and the discovered `[ts=110,id=C]`, the
persisted index order after the run is `[C, A, B]`. -/
theorem index_update_prepends_newest_first :
    (∀ (newPuzzles : List CDoc) (idx : PuzzleIndex),
        (addNewPuzzles newPuzzles idx).i = newPuzzles.map CDoc.id ++ idx.i ∧
        (addNewPuzzles newPuzzles idx).t = newPuzzles.map CDoc.p ++ idx.t) ∧
    getPuzzlesForPage exStore 200 0 10 =
      Except.ok (["C", "A", "B"], 3,
        { exStore with
          indexDoc := some (some
            { t := [110, 100, 90], i := ["C", "A", "B"],
              pv := none, pvui := none, pvut := none }) }) :=
  ⟨fun np idx => ⟨addNewPuzzles_i np idx, addNewPuzzles_t np idx⟩, by rfl⟩

/-- A store whose index document is present but fails `PuzzleIndexV`. -/
def corruptStore : Store := { cDocs := [exA], indexDoc := some none }

/-- C2 counterexample: with a present-but-invalid index document the run
aborts with an error; it does not re-initialize and serve the page. -/
theorem corrupt_index_is_not_treated_as_absent :
    getPuzzlesForPage corruptStore 200 0 10 =
      Except.error "failed to validate index" := by rfl

/-- C2 (amended): an index document that exists but fails shape validation
makes `getPuzzlesForPage` abort with `failed to validate index`; only an
absent index document is re-initialized to the empty index. -/
theorem corrupt_index_aborts (store : Store) (now : Int) (page pageSize : Nat)
    (h : store.indexDoc = some none) :
    getPuzzlesForPage store now page pageSize =
      Except.error "failed to validate index" := by
  unfold getPuzzlesForPage loadIndex
  rw [h]

/-- Witness for the amended C2 at a second concrete store. -/
theorem corrupt_index_aborts_witness :
    getPuzzlesForPage { cDocs := [exB, exC], indexDoc := some none } 150 1 5 =
      Except.error "failed to validate index" :=
  corrupt_index_aborts _ 150 1 5 rfl

/-! ### Facts about the query and update steps, used for idempotence -/

theorem mem_queryC_some {cDocs : List CDoc} {c : Int} {d : CDoc} :
    d ∈ queryC cDocs (some c) ↔ d ∈ cDocs ∧ d.matchesQuery = true ∧ c < d.p := by
  unfold queryC
  rw [(List.perm_insertionSort pDesc _).mem_iff, List.mem_filter]
  simp [and_assoc]

theorem mem_queryC_none {cDocs : List CDoc} {d : CDoc} :
    d ∈ queryC cDocs none ↔ d ∈ cDocs ∧ d.matchesQuery = true := by
  unfold queryC
  rw [(List.perm_insertionSort pDesc _).mem_iff, List.mem_filter]
  simp

theorem sorted_queryC (cDocs : List CDoc) (cutoff : Option Int) :
    List.Sorted pDesc (queryC cDocs cutoff) :=
  List.sorted_insertionSort pDesc _

theorem mapEachResult_eq_ok {l m : List CDoc} (h : mapEachResult l = Except.ok m) :
    m = l ∧ ∀ d ∈ l, d.valid = true := by
  induction l generalizing m with
  | nil =>
    simp only [mapEachResult, List.mapM_nil, pure, Except.pure] at h
    cases h
    exact ⟨rfl, by simp⟩
  | cons a l ih =>
    simp only [mapEachResult, List.mapM_cons] at h ih
    by_cases hv : a.valid
    · simp only [hv, if_pos] at h
      cases hm : l.mapM (fun d => if d.valid = true then Except.ok d
          else Except.error "failed to validate results") with
      | error e => rw [hm] at h; simp [Except.bind, bind] at h
      | ok rest =>
        rw [hm] at h
        simp only [bind, Except.bind, pure, Except.pure] at h
        cases h
        obtain ⟨hrest, hall⟩ := ih hm
        subst hrest
        refine ⟨rfl, ?_⟩
        intro d hd
        rcases List.mem_cons.mp hd with rfl | hd
        · exact hv
        · exact hall d hd
    · simp only [hv] at h
      simp [bind, Except.bind] at h

theorem mapEachResult_of_all_valid {l : List CDoc} (h : ∀ d ∈ l, d.valid = true) :
    mapEachResult l = Except.ok l := by
  induction l with
  | nil => rfl
  | cons a l ih =>
    have ha : a.valid = true := h a (by simp)
    have hrest := ih fun d hd => h d (List.mem_cons_of_mem a hd)
    simp only [mapEachResult, List.mapM_cons, ha, if_pos]
    simp only [mapEachResult] at hrest
    rw [hrest]
    rfl

/-- In a descending-sorted document list the head has the maximal publish
time. -/
theorem head_p_max {h : CDoc} {t : List CDoc} (hs : List.Sorted pDesc (h :: t))
    {d : CDoc} (hd : d ∈ h :: t) : d.p ≤ h.p := by
  rcases List.mem_cons.mp hd with heq | hmem
  · rw [heq]
  · exact (List.sorted_cons.mp hs).1 d hmem

/-- If every document the query pre-fetched is a valid member of the
collection with a unique id, page assembly does not depend on the
pre-fetched list. -/
theorem assemblePage_np_eq {cDocs np : List CDoc}
    (hnp : ∀ d ∈ np, d ∈ cDocs ∧ d.valid = true)
    (hnodup : (cDocs.map CDoc.id).Nodup) (entriesForPage : List String) :
    assemblePage cDocs np entriesForPage = assemblePage cDocs [] entriesForPage := by
  unfold assemblePage
  apply List.foldl_ext
  intro acc pid _
  cases hfind : np.find? (fun x => x.id == pid) with
  | none => simp
  | some d =>
    have hdnp : d ∈ np := List.mem_of_find?_eq_some hfind
    have hdid : d.id = pid := by simpa using List.find?_some hfind
    obtain ⟨hdc, hdv⟩ := hnp d hdnp
    have hsome : (cDocs.find? (fun x => x.id == pid)).isSome :=
      List.find?_isSome.mpr ⟨d, hdc, by simp [hdid]⟩
    obtain ⟨d', hd'⟩ := Option.isSome_iff_exists.mp hsome
    have hd'c : d' ∈ cDocs := List.mem_of_find?_eq_some hd'
    have hd'id : d'.id = pid := by simpa using List.find?_some hd'
    have hdd : d' = d :=
      List.inj_on_of_nodup_map hnodup hd'c hdc (by rw [hd'id, hdid])
    simp [hd', hdd, hdv, hdid]

/-- After a run that discovered `h0 :: np'`, a second query over the same
store is cut off at `h0`'s publish time and every document it returns is
already indexed: the second run discovers nothing new. -/
theorem second_run_discovers_nothing (cDocs : List CDoc) (idx0 : PuzzleIndex)
    (h0 : CDoc) (np' : List CDoc)
    (hnp : (queryC cDocs (cutoffOf idx0)).filter
      (fun a => !(idx0.i.contains a.id)) = h0 :: np') :
    (∀ d ∈ queryC cDocs (some h0.p), d ∈ queryC cDocs (cutoffOf idx0)) ∧
    (queryC cDocs (some h0.p)).filter
      (fun a => !((addNewPuzzles (h0 :: np') idx0).i.contains a.id)) = [] := by
  have hh0q : h0 ∈ queryC cDocs (cutoffOf idx0) := by
    have hm : h0 ∈ (queryC cDocs (cutoffOf idx0)).filter
        (fun a => !(idx0.i.contains a.id)) := by
      rw [hnp]; exact List.mem_cons_self _ _
    exact (List.mem_filter.mp hm).1
  have hsub : ∀ d ∈ queryC cDocs (some h0.p), d ∈ queryC cDocs (cutoffOf idx0) := by
    intro d hd
    obtain ⟨hdc, hdm, hdp⟩ := mem_queryC_some.mp hd
    cases hc : cutoffOf idx0 with
    | none => exact mem_queryC_none.mpr ⟨hdc, hdm⟩
    | some c0 =>
      rw [hc] at hh0q
      obtain ⟨_, _, hc0⟩ := mem_queryC_some.mp hh0q
      exact mem_queryC_some.mpr ⟨hdc, hdm, lt_trans hc0 hdp⟩
  refine ⟨hsub, ?_⟩
  apply List.filter_eq_nil_iff.mpr
  intro d hd
  obtain ⟨hdc, hdm, hdp⟩ := mem_queryC_some.mp hd
  have hdq1 := hsub d hd
  have hgoal : d.id ∈ (addNewPuzzles (h0 :: np') idx0).i := by
    rw [addNewPuzzles_i]
    by_cases hmem : d.id ∈ idx0.i
    · exact List.mem_append_right _ hmem
    · exfalso
      have hdnp : d ∈ h0 :: np' := by
        rw [← hnp]
        exact List.mem_filter.mpr ⟨hdq1, by simp [List.elem_iff, hmem]⟩
      have hsorted : List.Sorted pDesc (h0 :: np') := by
        rw [← hnp]
        exact (sorted_queryC cDocs (cutoffOf idx0)).filter _
      exact absurd hdp (not_lt.mpr (head_p_max hsorted hdnp))
  simp [List.elem_iff, hgoal]

/-- Page computation does not depend on the pre-fetched document list
when that list consists of valid, uniquely-identified collection
members. -/
theorem pageFromIndex_np_eq {cDocs np : List CDoc} (idx : PuzzleIndex)
    (now : Int) (page pageSize : Nat)
    (hnp : ∀ d ∈ np, d ∈ cDocs ∧ d.valid = true)
    (hnodup : (cDocs.map CDoc.id).Nodup) :
    pageFromIndex cDocs np idx now page pageSize =
      pageFromIndex cDocs [] idx now page pageSize := by
  unfold pageFromIndex
  cases hpl : privacyLoop idx now idx.i.length (idx.i.zip idx.t) with
  | error e => rfl
  | ok l => simp only [assemblePage_np_eq hnp hnodup]

/-- C1: re-running `getPuzzlesForPage` with no new documents in the
underlying store returns the identical ordered list of page puzzle ids
and the identical total count, and leaves the persisted index unchanged.
Firestore guarantees distinct document ids, hence the `Nodup` hypothesis. -/
theorem getPuzzlesForPage_idempotent (store : Store) (now : Int)
    (page pageSize : Nat) (ids : List String) (total : Nat) (store' : Store)
    (hnodup : (store.cDocs.map CDoc.id).Nodup)
    (h : getPuzzlesForPage store now page pageSize = Except.ok (ids, total, store')) :
    getPuzzlesForPage store' now page pageSize = Except.ok (ids, total, store') := by
  cases hload : loadIndex store with
  | error e => simp only [getPuzzlesForPage, hload] at h; cases h
  | ok index =>
  cases hmap : mapEachResult (queryC store.cDocs (cutoffOf index)) with
  | error e => simp only [getPuzzlesForPage, hload, hmap] at h; cases h
  | ok mapped =>
  obtain ⟨hmq, hvalid⟩ := mapEachResult_eq_ok hmap
  subst hmq
  simp only [getPuzzlesForPage, hload, hmap] at h
  cases hnp : (queryC store.cDocs (cutoffOf index)).filter
      (fun a => !(index.i.contains a.id)) with
  | nil =>
    rw [hnp] at h
    simp only [List.length_nil, ne_eq, not_true_eq_false, if_false] at h
    cases hpage : pageFromIndex store.cDocs [] index now page pageSize with
    | error e => rw [hpage] at h; simp at h
    | ok pt =>
      rw [hpage] at h
      obtain ⟨pids, ptotal⟩ := pt
      simp only [Except.ok.injEq, Prod.mk.injEq] at h
      obtain ⟨hids, htotal, hstore⟩ := h
      subst hids; subst htotal; subst hstore
      simp only [getPuzzlesForPage, hload, hmap, hnp, List.length_nil, ne_eq,
        not_true_eq_false, if_false, hpage]
  | cons h0 np' =>
    rw [hnp] at h
    have hlen : (h0 :: np').length ≠ 0 := by simp
    rw [if_pos hlen, if_pos hlen] at h
    cases hpage : pageFromIndex store.cDocs (h0 :: np')
        (addNewPuzzles (h0 :: np') index) now page pageSize with
    | error e => rw [hpage] at h; simp at h
    | ok pt =>
      rw [hpage] at h
      obtain ⟨pids, ptotal⟩ := pt
      simp only [Except.ok.injEq, Prod.mk.injEq] at h
      obtain ⟨hids, htotal, hstore⟩ := h
      subst hids; subst htotal
      obtain ⟨hsub, hnp2⟩ := second_run_discovers_nothing store.cDocs index h0 np' hnp
      have hnpsub : ∀ d ∈ h0 :: np', d ∈ store.cDocs ∧ d.valid = true := by
        intro d hd
        have hdq1 : d ∈ queryC store.cDocs (cutoffOf index) := by
          have hm : d ∈ (queryC store.cDocs (cutoffOf index)).filter
              (fun a => !(index.i.contains a.id)) := by rw [hnp]; exact hd
          exact (List.mem_filter.mp hm).1
        refine ⟨?_, hvalid d hdq1⟩
        cases hc : cutoffOf index with
        | none => rw [hc] at hdq1; exact (mem_queryC_none.mp hdq1).1
        | some c0 => rw [hc] at hdq1; exact (mem_queryC_some.mp hdq1).1
      have hvalid2 : ∀ d ∈ queryC store.cDocs (some h0.p), d.valid = true :=
        fun d hd => hvalid d (hsub d hd)
      have hq2map : mapEachResult (queryC store.cDocs (some h0.p)) =
          Except.ok (queryC store.cDocs (some h0.p)) :=
        mapEachResult_of_all_valid hvalid2
      have hload2 : loadIndex store' = Except.ok (addNewPuzzles (h0 :: np') index) := by
        rw [← hstore]; rfl
      have hcds : store'.cDocs = store.cDocs := by rw [← hstore]
      have hcut : cutoffOf (addNewPuzzles (h0 :: np') index) = some h0.p := by
        simp [cutoffOf, addNewPuzzles_i, addNewPuzzles_t]
      have hpage2 : pageFromIndex store.cDocs []
          (addNewPuzzles (h0 :: np') index) now page pageSize =
            Except.ok (pids, ptotal) := by
        rw [← pageFromIndex_np_eq (addNewPuzzles (h0 :: np') index) now page
          pageSize hnpsub hnodup]
        exact hpage
      simp only [getPuzzlesForPage, hload2, hcds, hcut, hq2map, hnp2,
        List.length_nil, ne_eq, not_true_eq_false, if_false, hpage2]

/-- Witness for C1: running the example store twice. -/
theorem getPuzzlesForPage_idempotent_witness :
    getPuzzlesForPage
        { exStore with
          indexDoc := some (some
            { t := [110, 100, 90], i := ["C", "A", "B"],
              pv := none, pvui := none, pvut := none }) } 200 0 10 =
      Except.ok (["C", "A", "B"], 3,
        { exStore with
          indexDoc := some (some
            { t := [110, 100, 90], i := ["C", "A", "B"],
              pv := none, pvui := none, pvut := none }) }) :=
  getPuzzlesForPage_idempotent exStore 200 0 10 _ _ _ (by decide) (by rfl)

/-! ### The privacy-splice loop as a filter (C3 / C4) -/

/-- What one splice-loop iteration does to the pair at the processed
position: drop permanently-private ids, drop future private-until ids,
replace the timestamp of live private-until ids with their go-live time,
keep everything else. -/
def keepPair (idx : PuzzleIndex) (now : Int) (pr : String × Int) :
    Option (String × Int) :=
  if (idx.pv.getD []).contains pr.1 then none
  else if (idx.pvui.getD []).contains pr.1 && idx.pvut.isSome then
    match goLiveOf idx pr.1 with
    | none => none
    | some goLiveTime =>
      if now < goLiveTime then none else some (pr.1, goLiveTime)
  else some pr

/-- The parallel private-until lists are well formed: every id has a
go-live timestamp. -/
def pvutAligned (idx : PuzzleIndex) : Prop :=
  (idx.pvui.getD []).length ≤ (idx.pvut.getD []).length

theorem goLiveOf_isSome {idx : PuzzleIndex} {pid : String}
    (hwf : pvutAligned idx) (hmem : (idx.pvui.getD []).contains pid = true) :
    ∃ g, goLiveOf idx pid = some g := by
  have hlt : (idx.pvui.getD []).indexOf pid < (idx.pvui.getD []).length :=
    List.indexOf_lt_length.mpr (List.elem_iff.mp hmem)
  have hlt2 : (idx.pvui.getD []).indexOf pid < (idx.pvut.getD []).length :=
    lt_of_lt_of_le hlt hwf
  exact ⟨_, List.getElem?_eq_getElem hlt2⟩

theorem zip_take_succ {α β : Type} (da : α) (db : β) :
    ∀ (k : Nat) (l1 : List α) (l2 : List β), k < l1.length → k < l2.length →
      (l1.take (k + 1)).zip l2 =
        (l1.take k).zip l2 ++ [(l1.getD k da, l2.getD k db)] := by
  intro k
  induction k with
  | zero =>
    intro l1 l2 h1 h2
    cases l1 with
    | nil => simp at h1
    | cons a l1 =>
      cases l2 with
      | nil => simp at h2
      | cons b l2 => simp
  | succ k ih =>
    intro l1 l2 h1 h2
    cases l1 with
    | nil => simp at h1
    | cons a l1 =>
      cases l2 with
      | nil => simp at h2
      | cons b l2 =>
        simp only [List.take_succ_cons, List.zip_cons_cons, List.getD_cons_succ]
        rw [ih l1 l2 (by simpa using h1) (by simpa using h2)]
        simp

theorem processEntry_at (idx : PuzzleIndex) (now : Int)
    (pre suf : List (String × Int)) (x : String) (tk : Int)
    (hwf : pvutAligned idx) :
    processEntry idx now pre.length x (pre ++ (x, tk) :: suf) =
      Except.ok (pre ++ (keepPair idx now (x, tk)).toList ++ suf) := by
  have herase : (pre ++ (x, tk) :: suf).eraseIdx pre.length = pre ++ suf := by
    rw [List.eraseIdx_append_of_length_le (le_refl pre.length)]
    simp
  have hget : (pre ++ (x, tk) :: suf)[pre.length]? = some (x, tk) := by
    rw [List.getElem?_append_right (le_refl pre.length)]
    simp
  unfold processEntry keepPair
  by_cases hpv : x ∈ idx.pv.getD []
  · simp [hpv, herase]
  · by_cases hui : x ∈ idx.pvui.getD []
    · by_cases hut : idx.pvut.isSome
      · obtain ⟨g, hg⟩ := @goLiveOf_isSome idx x hwf (by simp [List.elem_iff, hui])
        by_cases hfut : now < g
        · simp [hpv, hui, hut, hg, hfut, herase]
        · have hset : (pre ++ (x, tk) :: suf).set pre.length (x, g) =
              pre ++ (x, g) :: suf := by
            rw [List.set_append_right _ _ (le_refl pre.length)]
            simp
          simp [hpv, hui, hut, hg, hfut, hget, hset]
      · simp [hpv, hui, hut]
    · simp [hpv, hui]

theorem privacyLoop_eq (idx : PuzzleIndex) (now : Int) (hwf : pvutAligned idx) :
    ∀ (k : Nat) (suffix : List (String × Int)), k ≤ idx.i.length →
      k ≤ idx.t.length →
      privacyLoop idx now k ((idx.i.take k).zip idx.t ++ suffix) =
        Except.ok (((idx.i.take k).zip idx.t).filterMap (keepPair idx now) ++ suffix) := by
  intro k
  induction k with
  | zero => intro suffix _ _; simp [privacyLoop]
  | succ k ih =>
    intro suffix h1 h2
    have hk1 : k < idx.i.length := Nat.lt_of_succ_le h1
    have hk2 : k < idx.t.length := Nat.lt_of_succ_le h2
    have hzip := zip_take_succ "" (0 : Int) k idx.i idx.t hk1 hk2
    have hprelen : ((idx.i.take k).zip idx.t).length = k := by
      rw [List.length_zip, List.length_take]
      omega
    unfold privacyLoop
    rw [hzip, List.append_assoc, List.singleton_append]
    have hstep := processEntry_at idx now ((idx.i.take k).zip idx.t)
      suffix (idx.i.getD k "") (idx.t.getD k 0) hwf
    rw [hprelen] at hstep
    rw [hstep, List.append_assoc ((idx.i.take k).zip idx.t)
      (keepPair idx now (idx.i.getD k "", idx.t.getD k 0)).toList suffix]
    show privacyLoop idx now k _ = _
    refine (ih ((keepPair idx now (idx.i.getD k "", idx.t.getD k 0)).toList ++ suffix)
      (le_of_lt hk1) (le_of_lt hk2)).trans ?_
    cases hkeep : keepPair idx now (idx.i.getD k "", idx.t.getD k 0) <;>
      simp [List.filterMap_append, List.filterMap_cons, hkeep,
        ← List.getD_eq_getElem?_getD]

/-- The splice loop over the whole zipped index is exactly a `filterMap`
by `keepPair`. -/
theorem privacyLoop_filterMap (idx : PuzzleIndex) (now : Int)
    (hwf : pvutAligned idx) (hlen : idx.i.length ≤ idx.t.length) :
    privacyLoop idx now idx.i.length (idx.i.zip idx.t) =
      Except.ok ((idx.i.zip idx.t).filterMap (keepPair idx now)) := by
  have h := privacyLoop_eq idx now hwf idx.i.length [] (le_refl _) hlen
  simpa using h

theorem keepPair_fst {idx : PuzzleIndex} {now : Int} {pr v : String × Int}
    (h : keepPair idx now pr = some v) : v.1 = pr.1 := by
  unfold keepPair at h
  split at h
  · cases h
  · split at h
    · split at h
      · cases h
      · split at h
        · cases h
        · cases h; rfl
    · cases h; rfl

instance (idx : PuzzleIndex) : Decidable (pvutAligned idx) :=
  inferInstanceAs (Decidable (_ ≤ _))

theorem goLiveOf_some_pvut_isSome {idx : PuzzleIndex} {pid : String} {g : Int}
    (h : goLiveOf idx pid = some g) : idx.pvut.isSome = true := by
  cases hut : idx.pvut with
  | none => unfold goLiveOf at h; rw [hut] at h; simp at h
  | some l => rfl

/-- C3: the working list built by the splice loop excludes every
permanently-private id at any timestamp, excludes every private-until id
whose go-live time is still in the future, and retains (with the go-live
timestamp) every private-until id whose go-live time has passed. -/
theorem privacy_filter_excludes_and_retains (idx : PuzzleIndex) (now : Int)
    (l : List (String × Int))
    (hwf : pvutAligned idx) (hlen : idx.i.length ≤ idx.t.length)
    (h : privacyLoop idx now idx.i.length (idx.i.zip idx.t) = Except.ok l) :
    (∀ pid ∈ idx.pv.getD [], ∀ ts : Int, (pid, ts) ∉ l) ∧
    (∀ pid ∈ idx.pvui.getD [], ∀ g, goLiveOf idx pid = some g → now < g →
      ∀ ts : Int, (pid, ts) ∉ l) ∧
    (∀ pr ∈ idx.i.zip idx.t, pr.1 ∉ idx.pv.getD [] → pr.1 ∈ idx.pvui.getD [] →
      ∀ g, goLiveOf idx pr.1 = some g → g ≤ now → (pr.1, g) ∈ l) := by
  rw [privacyLoop_filterMap idx now hwf hlen] at h
  have hl : l = (idx.i.zip idx.t).filterMap (keepPair idx now) := by
    cases h; rfl
  subst hl
  refine ⟨?_, ?_, ?_⟩
  · intro pid hpv ts hmem
    obtain ⟨pr, _, hk⟩ := List.mem_filterMap.mp hmem
    have hfst : pid = pr.1 := keepPair_fst hk
    rw [hfst] at hpv
    unfold keepPair at hk
    rw [if_pos (List.elem_iff.mpr hpv)] at hk
    cases hk
  · intro pid hui g hg hfut ts hmem
    obtain ⟨pr, _, hk⟩ := List.mem_filterMap.mp hmem
    have hfst : pid = pr.1 := keepPair_fst hk
    rw [hfst] at hui hg
    unfold keepPair at hk
    by_cases hpv : pr.1 ∈ idx.pv.getD []
    · rw [if_pos (List.elem_iff.mpr hpv)] at hk
      cases hk
    · rw [if_neg (fun hc => hpv (List.elem_iff.mp hc))] at hk
      rw [if_pos (by simp [List.elem_iff, hui, goLiveOf_some_pvut_isSome hg])] at hk
      rw [hg] at hk
      have hk2 : (if now < g then (none : Option (String × Int))
          else some (pr.1, g)) = some (pid, ts) := hk
      rw [if_pos hfut] at hk2
      cases hk2
  · intro pr hpr hpv hui g hg hnow
    refine List.mem_filterMap.mpr ⟨pr, hpr, ?_⟩
    unfold keepPair
    rw [if_neg (fun hc => hpv (List.elem_iff.mp hc))]
    rw [if_pos (by simp [List.elem_iff, hui, goLiveOf_some_pvut_isSome hg])]
    rw [hg]
    show (if now < g then (none : Option (String × Int))
      else some (pr.1, g)) = some (pr.1, g)
    rw [if_neg (not_lt.mpr hnow)]

/-- Index with one permanently-private id `P`, a still-private `Q`
(go-live 35), a gone-live `R` (go-live 5) and a public `S`, at `now = 25`. -/
def c3Idx : PuzzleIndex :=
  { t := [40, 30, 20, 10], i := ["P", "Q", "R", "S"],
    pv := some ["P"], pvui := some ["Q", "R"], pvut := some [35, 5] }

/-- Witness for C3: the permanently-private `P` is not on the working
list `[(R,5),(S,10)]` produced by the loop. -/
theorem privacy_filter_excludes_and_retains_witness :
    ("P", (40 : Int)) ∉ ([("R", 5), ("S", 10)] : List (String × Int)) :=
  (privacy_filter_excludes_and_retains c3Idx 25 [("R", 5), ("S", 10)]
    (by decide) (by decide) (by rfl)).1 "P" (by decide) 40

theorem assemblePage_delivers (cDocs np : List CDoc) (entriesForPage : List String)
    (h : ∀ pid ∈ entriesForPage,
      (np.find? (fun x => x.id == pid)).isSome = true ∨
      ∃ d, cDocs.find? (fun x => x.id == pid) = some d ∧ d.valid = true) :
    assemblePage cDocs np entriesForPage = entriesForPage := by
  unfold assemblePage
  suffices hgen : ∀ acc, entriesForPage.foldl
      (fun puzzles puzzleId =>
        match np.find? (fun x => x.id == puzzleId) with
        | some alreadyHave => puzzles ++ [alreadyHave.id]
        | none =>
          match cDocs.find? (fun d => d.id == puzzleId) with
          | none => puzzles
          | some dbres => if dbres.valid then puzzles ++ [dbres.id] else puzzles)
      acc = acc ++ entriesForPage by
    simpa using hgen []
  induction entriesForPage with
  | nil => intro acc; simp
  | cons pid rest ih =>
    intro acc
    have hstep : (match np.find? (fun x => x.id == pid) with
        | some alreadyHave => acc ++ [alreadyHave.id]
        | none =>
          match cDocs.find? (fun d => d.id == pid) with
          | none => acc
          | some dbres => if dbres.valid then acc ++ [dbres.id] else acc) =
        acc ++ [pid] := by
      cases hfind : np.find? (fun x => x.id == pid) with
      | some d =>
        have : d.id = pid := by simpa using List.find?_some hfind
        simp [this]
      | none =>
        rcases h pid (by simp) with hnp | ⟨d, hd, hv⟩
        · rw [hfind] at hnp; cases hnp
        · have : d.id = pid := by simpa using List.find?_some hd
          simp [hd, hv, this]
    have hrest := ih (fun q hq => h q (List.mem_cons_of_mem pid hq)) (acc ++ [pid])
    simp only [List.foldl_cons, hstep, hrest, List.append_assoc, List.singleton_append,
      List.cons_append, List.nil_append]

/-- C4: the page result is computed from the working list: retained
private-until pairs carry their go-live timestamp, the working list is
sorted descending by effective timestamp, the returned ids are the slice
`[page*pageSize, page*pageSize + pageSize)` of that sorted list, and the
returned total is the post-filter length. -/
theorem page_result_is_sorted_slice (cDocs np : List CDoc) (idx : PuzzleIndex)
    (now : Int) (page pageSize : Nat)
    (hwf : pvutAligned idx) (hlen : idx.i.length ≤ idx.t.length)
    (hread : ∀ pid ∈ idx.i,
      (np.find? (fun x => x.id == pid)).isSome = true ∨
      ∃ d, cDocs.find? (fun x => x.id == pid) = some d ∧ d.valid = true) :
    pageFromIndex cDocs np idx now page pageSize =
      Except.ok
        ((((List.insertionSort tDesc
              ((idx.i.zip idx.t).filterMap (keepPair idx now))).drop
            (page * pageSize)).take pageSize).map Prod.fst,
          ((idx.i.zip idx.t).filterMap (keepPair idx now)).length) ∧
    List.Sorted tDesc
      (List.insertionSort tDesc ((idx.i.zip idx.t).filterMap (keepPair idx now))) ∧
    (List.insertionSort tDesc ((idx.i.zip idx.t).filterMap (keepPair idx now))).Perm
      ((idx.i.zip idx.t).filterMap (keepPair idx now)) ∧
    (∀ pr ∈ (idx.i.zip idx.t).filterMap (keepPair idx now),
      pr.1 ∈ idx.pvui.getD [] → ∀ g, goLiveOf idx pr.1 = some g → pr.2 = g) := by
  refine ⟨?_, List.sorted_insertionSort tDesc _, List.perm_insertionSort tDesc _, ?_⟩
  · have hfm := privacyLoop_filterMap idx now hwf hlen
    unfold pageFromIndex
    rw [hfm]
    show Except.ok (assemblePage cDocs np _, _) = _
    have hdeliver : assemblePage cDocs np
        ((((List.insertionSort tDesc
            ((idx.i.zip idx.t).filterMap (keepPair idx now))).drop
          (page * pageSize)).take pageSize).map Prod.fst) =
        (((List.insertionSort tDesc
            ((idx.i.zip idx.t).filterMap (keepPair idx now))).drop
          (page * pageSize)).take pageSize).map Prod.fst := by
      apply assemblePage_delivers
      intro pid hpid
      obtain ⟨pr, hpr, hfst⟩ := List.mem_map.mp hpid
      have hsorted : pr ∈ List.insertionSort tDesc
          ((idx.i.zip idx.t).filterMap (keepPair idx now)) :=
        List.mem_of_mem_drop (List.mem_of_mem_take hpr)
      have hwl : pr ∈ (idx.i.zip idx.t).filterMap (keepPair idx now) :=
        (List.perm_insertionSort tDesc _).mem_iff.mp hsorted
      obtain ⟨orig, horig, hk⟩ := List.mem_filterMap.mp hwl
      have : pr.1 = orig.1 := keepPair_fst hk
      have hin : pid ∈ idx.i := by
        rw [← hfst, this]
        exact (List.of_mem_zip horig).1
      exact hread pid hin
    rw [hdeliver, (List.perm_insertionSort tDesc _).length_eq]
  · intro pr hpr hui g hg
    obtain ⟨orig, _, hk⟩ := List.mem_filterMap.mp hpr
    have hfst : pr.1 = orig.1 := keepPair_fst hk
    rw [hfst] at hui hg
    unfold keepPair at hk
    by_cases hpv : orig.1 ∈ idx.pv.getD []
    · rw [if_pos (List.elem_iff.mpr hpv)] at hk
      cases hk
    · rw [if_neg (fun hc => hpv (List.elem_iff.mp hc))] at hk
      rw [if_pos (by simp [List.elem_iff, hui, goLiveOf_some_pvut_isSome hg])] at hk
      rw [hg] at hk
      have hk2 : (if now < g then (none : Option (String × Int))
          else some (orig.1, g)) = some pr := hk
      by_cases hfut : now < g
      · rw [if_pos hfut] at hk2
        cases hk2
      · rw [if_neg hfut] at hk2
        cases hk2
        rfl

/-- Valid matching documents for the four ids of `c3Idx`. -/
def c4Docs : List CDoc :=
  [{ id := "P", p := 40, matchesQuery := true, pv := true, pvu := none, valid := true },
   { id := "Q", p := 30, matchesQuery := true, pv := false, pvu := some 35, valid := true },
   { id := "R", p := 20, matchesQuery := true, pv := false, pvu := some 5, valid := true },
   { id := "S", p := 10, matchesQuery := true, pv := false, pvu := none, valid := true }]

/-- Witness for C4 on the concrete index and store. -/
theorem page_result_is_sorted_slice_witness :
    pageFromIndex c4Docs [] c3Idx 25 0 10 =
      Except.ok
        ((((List.insertionSort tDesc
              ((c3Idx.i.zip c3Idx.t).filterMap (keepPair c3Idx 25))).drop
            (0 * 10)).take 10).map Prod.fst,
          ((c3Idx.i.zip c3Idx.t).filterMap (keepPair c3Idx 25)).length) :=
  (page_result_is_sorted_slice c4Docs [] c3Idx 25 0 10
    (by decide) (by decide) (by decide)).1

/-- A page id is deliverable when its document was pre-fetched by the
query or exists in the collection and decodes. -/
def deliverable (cDocs np : List CDoc) (pid : String) : Bool :=
  match np.find? (fun x => x.id == pid) with
  | some _ => true
  | none =>
    match cDocs.find? (fun d => d.id == pid) with
    | none => false
    | some d => d.valid

/-- C6: page assembly never raises on a missing or undecodable document:
the delivered ids are exactly the deliverable ids of the page, in order,
and the page computation succeeds whenever the splice loop does,
whatever the state of the documents. -/
theorem assemble_skips_unreadable (cDocs np : List CDoc)
    (entriesForPage : List String) :
    assemblePage cDocs np entriesForPage =
      entriesForPage.filter (deliverable cDocs np) ∧
    (∀ (idx : PuzzleIndex) (now : Int) (page pageSize : Nat)
        (l : List (String × Int)),
      privacyLoop idx now idx.i.length (idx.i.zip idx.t) = Except.ok l →
      (pageFromIndex cDocs np idx now page pageSize).isOk = true) := by
  constructor
  · unfold assemblePage
    suffices hgen : ∀ acc, entriesForPage.foldl
        (fun puzzles puzzleId =>
          match np.find? (fun x => x.id == puzzleId) with
          | some alreadyHave => puzzles ++ [alreadyHave.id]
          | none =>
            match cDocs.find? (fun d => d.id == puzzleId) with
            | none => puzzles
            | some dbres => if dbres.valid then puzzles ++ [dbres.id] else puzzles)
        acc = acc ++ entriesForPage.filter (deliverable cDocs np) by
      simpa using hgen []
    induction entriesForPage with
    | nil => intro acc; simp
    | cons pid rest ih =>
      intro acc
      rw [List.foldl_cons]
      cases hfind : np.find? (fun x => x.id == pid) with
      | some d =>
        have hid : d.id = pid := by simpa using List.find?_some hfind
        have hdel : deliverable cDocs np pid = true := by
          unfold deliverable
          rw [hfind]
        rw [List.filter_cons_of_pos hdel, ih]
        simp [hid]
      | none =>
        cases hfindc : cDocs.find? (fun d => d.id == pid) with
        | none =>
          have hdel : deliverable cDocs np pid = false := by
            unfold deliverable
            rw [hfind, hfindc]
          rw [List.filter_cons_of_neg (by simp [hdel]), ih]
        | some d =>
          have hid : d.id = pid := by simpa using List.find?_some hfindc
          have hdel : deliverable cDocs np pid = d.valid := by
            unfold deliverable
            rw [hfind, hfindc]
          cases hv : d.valid with
          | true =>
            rw [List.filter_cons_of_pos (by rw [hdel, hv]), ih]
            simp [hid, hv]
          | false =>
            rw [List.filter_cons_of_neg (by simp [hdel, hv]), ih]
            simp [hv]
  · intro idx now page pageSize l hl
    unfold pageFromIndex
    rw [hl]
    rfl

/-- Witness for C6: an invalid (`B`) and an absent (`Z`) document are
skipped while the valid `A` is still delivered. -/
theorem assemble_skips_unreadable_witness :
    assemblePage
        [{ id := "A", p := 10, matchesQuery := true, pv := false, pvu := none,
           valid := true },
         { id := "B", p := 9, matchesQuery := true, pv := false, pvu := none,
           valid := false }] [] ["A", "B", "Z"] =
      List.filter
        (deliverable
          [{ id := "A", p := 10, matchesQuery := true, pv := false, pvu := none,
             valid := true },
           { id := "B", p := 9, matchesQuery := true, pv := false, pvu := none,
             valid := false }] []) ["A", "B", "Z"] :=
  (assemble_skips_unreadable _ _ _).1

/-! ## Grid entries, completed words and publish validation

The implementations of entry derivation, `completedWord` and
`validateForPublish` live in the grid/reducer library files
(`lib/viewableGrid`, `reducers/reducer`), which are referenced by
`Preview.tsx` and the builder tests but are not part of this source
snapshot.  The definitions below are modelled from the specification
(sections 3, 4.2, 4.3 and 6).
-/

/-- Modelled from the spec: a grid cell is a block, empty, or holds a
letter value (a rebus cell holds more than one character). -/
inductive Cell
  | block
  | empty
  | letter (s : String)
deriving Repr, DecidableEq

/-- Modelled from the spec: a rectangular grid, cells in row-major
order. -/
structure Grid where
  width : Nat
  height : Nat
  cells : List Cell
deriving Repr, DecidableEq

inductive Dir
  | across
  | down
deriving Repr, DecidableEq

/-- Modelled from the spec: an entry is a maximal run of non-block cells
of length at least two, with its direction, label number and ordered cell
indices. -/
structure Entry where
  direction : Dir
  label : Nat
  cells : List Nat
deriving Repr, DecidableEq

def cellAt (g : Grid) (r c : Nat) : Cell :=
  g.cells.getD (r * g.width + c) Cell.block

def isBlockAt (g : Grid) (r c : Nat) : Bool :=
  match cellAt g r c with
  | Cell.block => true
  | _ => false

/-- Modelled from the spec (4.2): a cell starts an Across entry when it is
not a block, has a block or the grid edge immediately to its left, and at
least one non-block cell to its right. -/
def startsAcross (g : Grid) (r c : Nat) : Bool :=
  !isBlockAt g r c && (c == 0 || isBlockAt g r (c - 1)) &&
    (c + 1 < g.width && !isBlockAt g r (c + 1))

/-- Modelled from the spec (4.2): the Down analogue of `startsAcross`. -/
def startsDown (g : Grid) (r c : Nat) : Bool :=
  !isBlockAt g r c && (r == 0 || isBlockAt g (r - 1) c) &&
    (r + 1 < g.height && !isBlockAt g (r + 1) c)

def acrossCells (g : Grid) (r c : Nat) : List Nat :=
  ((List.range (g.width - c)).takeWhile (fun k => !isBlockAt g r (c + k))).map
    (fun k => r * g.width + (c + k))

def downCells (g : Grid) (r c : Nat) : List Nat :=
  ((List.range (g.height - r)).takeWhile (fun k => !isBlockAt g (r + k) c)).map
    (fun k => (r + k) * g.width + c)

/-- Modelled from the spec (4.2): scan cells in row-major order; a shared
label counter increments once per cell starting at least one entry, the
number being shared between a co-starting Across and Down entry; entries
are emitted in label order, Across before Down at equal label. -/
def deriveEntries (g : Grid) : List Entry :=
  let positions := (List.range g.height).flatMap
    (fun r => (List.range g.width).map (fun c => (r, c)))
  (positions.foldl
    (fun st rc =>
      let sa := startsAcross g rc.1 rc.2
      let sd := startsDown g rc.1 rc.2
      if sa || sd then
        (st.1 + 1,
         st.2 ++
           (if sa then
              [{ direction := Dir.across, label := st.1,
                 cells := acrossCells g rc.1 rc.2 }]
            else []) ++
           (if sd then
              [{ direction := Dir.down, label := st.1,
                 cells := downCells g rc.1 rc.2 }]
            else []))
      else st)
    ((1, []) : Nat × List Entry)).2

/-- Modelled from the spec (3): the clue mapping keyed by (direction,
label number). -/
def clueFor (clues : List ((Dir × Nat) × String)) (d : Dir) (n : Nat) :
    Option String :=
  (clues.find? (fun pr => pr.1 == (d, n))).map Prod.snd

def hasNonEmptyClue (clues : List ((Dir × Nat) × String)) (e : Entry) : Bool :=
  match clueFor clues e.direction e.label with
  | some s => !s.isEmpty
  | none => false

/-- Modelled from the spec (6): symmetry categories. -/
inductive Symmetry
  | none
  | rotational
  | horizontal
  | vertical
  | diagonalNWSE
  | diagonalNESW
deriving Repr, DecidableEq

def symCell (sym : Symmetry) (w h : Nat) (r c : Nat) : Nat × Nat :=
  match sym with
  | Symmetry.none => (r, c)
  | Symmetry.rotational => (h - 1 - r, w - 1 - c)
  | Symmetry.horizontal => (h - 1 - r, c)
  | Symmetry.vertical => (r, w - 1 - c)
  | Symmetry.diagonalNWSE => (c, r)
  | Symmetry.diagonalNESW => (w - 1 - c, h - 1 - r)

/-- Modelled from the spec (4.3c): the declared symmetry holds when block
placement is invariant under the corresponding cell map. -/
def symmetryHolds (g : Grid) (sym : Symmetry) : Bool :=
  ((List.range g.height).flatMap
    (fun r => (List.range g.width).map (fun c => (r, c)))).all
    (fun rc =>
      isBlockAt g rc.1 rc.2 ==
        isBlockAt g (symCell sym g.width g.height rc.1 rc.2).1
          (symCell sym g.width g.height rc.1 rc.2).2)

def openCellIdxs (g : Grid) : List Nat :=
  (List.range (g.width * g.height)).filter
    (fun idx => !isBlockAt g (idx / g.width) (idx % g.width))

def adjacentIdx (g : Grid) (a b : Nat) : Bool :=
  let ra := a / g.width
  let ca := a % g.width
  let rb := b / g.width
  let cb := b % g.width
  (ra == rb && (ca + 1 == cb || cb + 1 == ca)) ||
  (ca == cb && (ra + 1 == rb || rb + 1 == ra))

def expandReach (g : Grid) (s : List Nat) : List Nat :=
  (openCellIdxs g).filter
    (fun idx => s.contains idx || s.any (fun b => adjacentIdx g idx b))

/-- Modelled from the spec (4.3b): connectivity heuristic, a bounded
flood fill from the first open cell. -/
def isConnected (g : Grid) : Bool :=
  match openCellIdxs g with
  | [] => true
  | seed :: _ =>
    let reach := (List.range (g.width * g.height)).foldl
      (fun s _ => expandReach g s) [seed]
    (openCellIdxs g).all (fun idx => reach.contains idx)

structure PublishValidation where
  errors : List String
  warnings : List String
deriving Repr, DecidableEq

/-- Modelled from the spec (4.3): publish-time validation.  Every entry
lacking a non-empty clue yields an error (blocking publish); symmetry
mismatch and the size / connectivity heuristics yield warnings only. -/
def validateForPublish (g : Grid) (clues : List ((Dir × Nat) × String))
    (sym : Symmetry) : PublishValidation :=
  { errors := (deriveEntries g).filterMap
      (fun e =>
        if hasNonEmptyClue clues e then none
        else some ("Entry " ++ toString e.label ++ " is missing a clue")),
    warnings :=
      (if !symmetryHolds g sym then
        ["Grid symmetry does not match the declared symmetry"]
       else []) ++
      (if g.width < 5 || g.height < 5 then ["Grid is very small"] else []) ++
      (if !isConnected g then ["Grid is disconnected"] else []) }

/-- Modelled from the spec (4.3): the letter currently in a cell, `none`
when the cell is a block, empty, out of range, or holds the empty
value. -/
def cellLetter (g : Grid) (idx : Nat) : Option String :=
  match g.cells.getD idx Cell.block with
  | Cell.letter s => if s.isEmpty then none else some s
  | _ => none

/-- Modelled from the spec (4.3): `completedWord(entry, grid)` returns
the concatenated letters when every cell of the entry is filled, else
null. -/
def completedWord (e : Entry) (g : Grid) : Option String :=
  (e.cells.mapM (cellLetter g)).map String.join

theorem mapM_option_eq_none {α β : Type} (f : α → Option β) (l : List α) :
    l.mapM f = none ↔ ∃ a ∈ l, f a = none := by
  induction l with
  | nil =>
    constructor
    · intro h
      cases h
    · rintro ⟨a, ha, _⟩
      cases ha
  | cons a l ih =>
    rw [List.mapM_cons]
    cases hfa : f a with
    | none =>
      constructor
      · intro _
        exact ⟨a, by simp, hfa⟩
      · intro _
        rfl
    | some b =>
      cases hrest : l.mapM f with
      | none =>
        constructor
        · intro _
          obtain ⟨x, hx, hfx⟩ := ih.mp hrest
          exact ⟨x, List.mem_cons_of_mem a hx, hfx⟩
        · intro _
          rfl
      | some bs =>
        constructor
        · intro hcontra
          exact Option.noConfusion
            (show (some (b :: bs) : Option (List β)) = none from hcontra)
        · rintro ⟨x, hx, hfx⟩
          rcases List.mem_cons.mp hx with rfl | hx2
          · rw [hfa] at hfx
            cases hfx
          · have hmem := ih.mpr ⟨x, hx2, hfx⟩
            rw [hrest] at hmem
            cases hmem

theorem mapM_option_of_all_some {α β : Type} [Inhabited β] (f : α → Option β)
    (l : List α) (h : ∀ a ∈ l, (f a).isSome = true) :
    l.mapM f = some (l.map (fun a => (f a).getD default)) := by
  induction l with
  | nil => rfl
  | cons a l ih =>
    have ha := h a (by simp)
    obtain ⟨b, hb⟩ := Option.isSome_iff_exists.mp ha
    have hrest := ih fun x hx => h x (List.mem_cons_of_mem a hx)
    rw [List.mapM_cons, hb, hrest]
    simp [hb]

/-- C8: `completedWord` is null exactly when some cell of the entry does
not hold a (non-empty) letter, and when every cell holds letters
`L1..Ln` it returns exactly their concatenation. -/
theorem completedWord_spec (e : Entry) (g : Grid) :
    (completedWord e g = none ↔ ∃ idx ∈ e.cells, cellLetter g idx = none) ∧
    ((∀ idx ∈ e.cells, (cellLetter g idx).isSome = true) →
      completedWord e g =
        some (String.join (e.cells.map (fun idx => (cellLetter g idx).getD "")))) := by
  constructor
  · unfold completedWord
    rw [Option.map_eq_none']
    exact mapM_option_eq_none (cellLetter g) e.cells
  · intro hall
    unfold completedWord
    rw [mapM_option_of_all_some (cellLetter g) e.cells hall]
    rfl

/-- Witness for C8: a two-cell entry over a row holding `A`, `B`. -/
theorem completedWord_spec_witness :
    completedWord { direction := Dir.across, label := 1, cells := [0, 1] }
        { width := 2, height := 1, cells := [Cell.letter "A", Cell.letter "B"] } =
      some (String.join
        ([0, 1].map (fun idx =>
          (cellLetter
            { width := 2, height := 1,
              cells := [Cell.letter "A", Cell.letter "B"] } idx).getD ""))) :=
  (completedWord_spec
    { direction := Dir.across, label := 1, cells := [0, 1] }
    { width := 2, height := 1, cells := [Cell.letter "A", Cell.letter "B"] }).2
    (by decide)

/-- C7: publish validation yields one error per entry lacking a
non-empty clue — zero errors exactly when every entry is clued — and the
error list does not depend on the declared symmetry; symmetry mismatch
and the size / connectivity heuristics surface only as warnings. -/
theorem validateForPublish_spec (g : Grid) (clues : List ((Dir × Nat) × String))
    (sym sym' : Symmetry) :
    ((validateForPublish g clues sym).errors = [] ↔
      ∀ e ∈ deriveEntries g, hasNonEmptyClue clues e = true) ∧
    (validateForPublish g clues sym).errors =
      (validateForPublish g clues sym').errors ∧
    (validateForPublish g clues sym).errors.length =
      ((deriveEntries g).filter (fun e => !hasNonEmptyClue clues e)).length := by
  refine ⟨?_, rfl, ?_⟩
  · unfold validateForPublish
    simp only [List.filterMap_eq_nil_iff]
    constructor
    · intro h e he
      have := h e he
      by_cases hc : hasNonEmptyClue clues e
      · exact hc
      · simp [hc] at this
    · intro h e he
      simp [h e he]
  · unfold validateForPublish
    induction deriveEntries g with
    | nil => rfl
    | cons e rest ih =>
      by_cases hc : hasNonEmptyClue clues e
      · simpa [hc] using ih
      · simpa [hc] using ih

end Crosshare
